import Mathlib

/-!
Verification development for the ExaAToW ontology management system
(`ontology_generator.py` and `modification/modification_utils.py`).

The Python code is shallowly embedded: the rdflib graph becomes a
duplicate-free, insertion-ordered list of triples; Python dicts become
insertion-ordered association lists with Python `dict` update semantics;
blank-node allocation becomes an explicit counter threaded through the
state.  Functions that can raise are modelled with `Except`, where the
error value mirrors the Python exception being raised.
-/

/-- An RDF node: a URI reference, a blank node (identified by an arena
index standing for rdflib's generated label), or a literal.  rdflib
literals carry either a language tag or a datatype (never both); both
are `Option` here, with `none`/`none` a plain literal. -/
inductive RDFNode where
  | uri (u : String)
  | bnode (n : Nat)
  | lit (val : String) (lang : Option String) (dt : Option String)
  deriving DecidableEq, Repr

abbrev Triple := RDFNode × RDFNode × RDFNode

/-- The rdflib `Graph` is a set of triples; we keep insertion order and
deduplicate on add (`graph.add` of a present triple is a no-op). -/
abbrev RDFGraph := List Triple

/-- Model of `rdflib.Graph.add`: a set-insert that keeps insertion order. -/
def RDFGraph.add (g : RDFGraph) (t : Triple) : RDFGraph :=
  if t ∈ g then g else g ++ [t]

/-- Fold `RDFGraph.add` over a batch of triples (a sequence of
`self.graph.add(...)` calls in the source). -/
def RDFGraph.addAll (g : RDFGraph) (ts : List Triple) : RDFGraph :=
  ts.foldl RDFGraph.add g

/-! ### Python-dict style association lists

Python dicts keep insertion order; setting an existing key updates its
value in place, setting a new key appends.  Keys are unique in every
dict the source builds, but the operations below are total on arbitrary
association lists. -/

/-- `d[k]` lookup returning `none` when the key is absent. -/
def dictGet {α β : Type} [DecidableEq α] (d : List (α × β)) (k : α) : Option β :=
  (d.find? (fun p => p.1 = k)).map (fun p => p.2)

/-- `d[k] = v`: update in place if `k` is present, else append. -/
def dictSet {α β : Type} [DecidableEq α] (d : List (α × β)) (k : α) (v : β) :
    List (α × β) :=
  if d.any (fun p => p.1 = k) then
    d.map (fun p => if p.1 = k then (k, v) else p)
  else
    d ++ [(k, v)]

/-- `d.pop(k)` (the removal part): Python dict keys are unique, so
removing all occurrences coincides with dict semantics. -/
def dictRemove {α β : Type} [DecidableEq α] (d : List (α × β)) (k : α) :
    List (α × β) :=
  d.filter (fun p => p.1 ≠ k)

/-- Uniqueness of keys, the invariant every Python dict satisfies. -/
def keysNodup {α β : Type} (d : List (α × β)) : Prop :=
  (d.map Prod.fst).Nodup

/-! ### Namespaces and fixed vocabulary -/

def rdfNS : String := "http://www.w3.org/1999/02/22-rdf-syntax-ns#"
def rdfsNS : String := "http://www.w3.org/2000/01/rdf-schema#"
def owlNS : String := "http://www.w3.org/2002/07/owl#"
def xsdNS : String := "http://www.w3.org/2001/XMLSchema#"
def skosNS : String := "http://www.w3.org/2004/02/skos/core#"

def rdf_type : RDFNode := .uri (rdfNS ++ "type")
def rdf_first : RDFNode := .uri (rdfNS ++ "first")
def rdf_rest : RDFNode := .uri (rdfNS ++ "rest")
def rdf_nil : RDFNode := .uri (rdfNS ++ "nil")
def rdfs_subClassOf : RDFNode := .uri (rdfsNS ++ "subClassOf")
def rdfs_comment : RDFNode := .uri (rdfsNS ++ "comment")
def rdfs_seeAlso : RDFNode := .uri (rdfsNS ++ "seeAlso")
def rdfs_domain : RDFNode := .uri (rdfsNS ++ "domain")
def rdfs_range : RDFNode := .uri (rdfsNS ++ "range")
def owl_Class : RDFNode := .uri (owlNS ++ "Class")
def owl_Restriction : RDFNode := .uri (owlNS ++ "Restriction")
def owl_equivalentClass : RDFNode := .uri (owlNS ++ "equivalentClass")
def owl_intersectionOf : RDFNode := .uri (owlNS ++ "intersectionOf")
def owl_oneOf : RDFNode := .uri (owlNS ++ "oneOf")
def owl_onProperty : RDFNode := .uri (owlNS ++ "onProperty")
def owl_onClass : RDFNode := .uri (owlNS ++ "onClass")
def owl_someValuesFrom : RDFNode := .uri (owlNS ++ "someValuesFrom")
def owl_allValuesFrom : RDFNode := .uri (owlNS ++ "allValuesFrom")
def owl_hasValue : RDFNode := .uri (owlNS ++ "hasValue")
def owl_cardinality : RDFNode := .uri (owlNS ++ "cardinality")
def owl_qualifiedCardinality : RDFNode := .uri (owlNS ++ "qualifiedCardinality")
def owl_minCardinality : RDFNode := .uri (owlNS ++ "minCardinality")
def owl_maxCardinality : RDFNode := .uri (owlNS ++ "maxCardinality")
def owl_minQualifiedCardinality : RDFNode := .uri (owlNS ++ "minQualifiedCardinality")
def owl_maxQualifiedCardinality : RDFNode := .uri (owlNS ++ "maxQualifiedCardinality")
def owl_ObjectProperty : RDFNode := .uri (owlNS ++ "ObjectProperty")
def owl_DatatypeProperty : RDFNode := .uri (owlNS ++ "DatatypeProperty")
def owl_AnnotationProperty : RDFNode := .uri (owlNS ++ "AnnotationProperty")
def skos_prefLabel : RDFNode := .uri (skosNS ++ "prefLabel")

/-- `DEFAULT_BASE_URI` with no `ontology_config.yaml` present (already
ending in the `#` that `__init__` would otherwise append). -/
def baseURI : String := "https://localhost/myontology#"

/-- `LANG` with no configuration file present. -/
def DEFAULT_LANG : String := "en"

/-- The namespace table bound by `_bind_namespaces` for a given base
URI, in binding order.  (Recent rdflib versions pre-bind further
standard prefixes in `Graph()`; the claims below only exercise prefixes
that are in this table, or in no table at all.) -/
def nsTableFor (base : String) : List (String × String) :=
  [("exa-atow", base),
   ("skos", skosNS),
   ("owl", owlNS),
   ("rdf", rdfNS),
   ("rdfs", rdfsNS),
   ("xsd", xsdNS),
   ("eurio", "http://data.europa.eu/s66#"),
   ("hpc_onto", "https://hpc-fair.github.io/ontology/#")]

/-! ### `CreateOnto._resolve_uri` (string inputs)

`URIRef` inputs are returned unchanged by the source and non-string
inputs raise; all call sites the claims exercise pass strings, which
never raise, so the model covers the string branch and is total. -/

/-- `s.startswith(pre)` over character lists (the library versions do
not reduce in the kernel). -/
def isPrefixCh : List Char → List Char → Bool
  | [], _ => true
  | _ :: _, [] => false
  | a :: as, b :: bs => a = b && isPrefixCh as bs

/-- `s.startswith(pre)`. -/
def startsWithStr (s pre : String) : Bool := isPrefixCh pre.data s.data

/-- `s.split(sep, 1)`: `none` when `sep` does not occur (which is also
the `sep in s` test), otherwise the parts before and after the first
occurrence. -/
def splitFirst (sep : Char) : List Char → Option (List Char × List Char)
  | [] => none
  | c :: cs =>
    if c = sep then some ([], cs)
    else match splitFirst sep cs with
         | none => none
         | some (a, b) => some (c :: a, b)

/-- `s.lower()` (ASCII-sufficient for the prefixes the source binds). -/
def toLowerStr (s : String) : String := ⟨s.data.map Char.toLower⟩

/-- The characters after the last `#`, i.e. `s.split("#")[-1]`. -/
def localNameCh (l : List Char) : List Char :=
  ((l.reverse).takeWhile (fun c => c ≠ '#')).reverse

/-- `s.split("#")[-1]`. -/
def localName (s : String) : String := ⟨localNameCh s.data⟩

/-- Model of `CreateOnto._resolve_uri` on a string token.  `nsT` is the
bound namespace table (`self.graph.namespaces()`), `ontoNS` the base
URI of `self.ONTO`, `ns` the optional `namespace` argument. -/
def resolve_uri (nsT : List (String × String)) (ontoNS : String)
    (ns : Option String) (uri_or_name : String) : String :=
  if startsWithStr uri_or_name "http://" || startsWithStr uri_or_name "https://" then
    uri_or_name
  else
    -- the `':' in uri_or_name` test and `uri_or_name.split(':', 1)`
    match splitFirst ':' uri_or_name.data with
    | some (pfxCh, locCh) =>
      let pfx := toLowerStr ⟨pfxCh⟩
      let loc : String := ⟨locCh⟩
      match dictGet nsT pfx with
      | some nsURI => nsURI ++ loc
      | none =>
        -- warning printed, then: return self.ONTO[uri_or_name]
        -- NOTE: the source uses self.ONTO here, not the `namespace` argument
        ontoNS ++ uri_or_name
    | none => (ns.getD ontoNS) ++ uri_or_name

/-! ### Ontology manager state -/

/-- The mutable state of a `CreateOnto` instance: the rdflib graph, the
`json_file_mapping` dict, the base URI, the JSON directory, and an
arena counter standing for rdflib's fresh blank-node labels. -/
structure OntoState where
  base : String
  graph : RDFGraph
  jsonFileMapping : List (String × String)
  nextBNode : Nat
  json_dir : String
  deriving DecidableEq, Repr

/-- `self._resolve_uri(s)` as called throughout the class (no explicit
`namespace` argument). -/
def OntoState.resolve (st : OntoState) (s : String) : RDFNode :=
  .uri (resolve_uri (nsTableFor st.base) st.base none s)

/-- Python truthiness of an optional string (`None` and `""` are falsy). -/
def truthyStr : Option String → Bool
  | some s => !(s == "")
  | none => false

/-- Python truthiness of an optional list (`None` and `[]` are falsy). -/
def truthyList {α : Type} : Option (List α) → Bool
  | some l => !l.isEmpty
  | none => false

/-- A `Union[str, dict]` multilingual value: a bare string or a
language-to-text mapping in insertion order. -/
inductive LangValue where
  | str (s : String)
  | map (m : List (String × String))
  deriving DecidableEq, Repr

/-- Python truthiness of an optional `Union[str, dict]` value. -/
def truthyLV : Option LangValue → Bool
  | some (.str s) => !(s == "")
  | some (.map m) => !m.isEmpty
  | none => false

/-- The statements emitted by `_add_multilingual_property`: one
language-tagged literal per mapping entry, or a single literal tagged
with the default language for a bare string. -/
def multilingualTriples (subject predicate : RDFNode) (value : LangValue)
    (default_lang : String) : List Triple :=
  match value with
  | .map m => m.map (fun lt => (subject, predicate, RDFNode.lit lt.2 (some lt.1) none))
  | .str s => [(subject, predicate, RDFNode.lit s (some default_lang) none)]

/-- `CreateOnto._add_multilingual_property` acting on the graph. -/
def add_multilingual_property (g : RDFGraph) (subject predicate : RDFNode)
    (value : LangValue) (default_lang : String) : RDFGraph :=
  g.addAll (multilingualTriples subject predicate value default_lang)

/-- `os.path.join` for the relative paths the source uses. -/
def pathJoin (a b : String) : String := a ++ "/" ++ b

/-- `CreateOnto._handle_json_path`: register the owning JSON file of an
identifier (prefixing the JSON directory when configured and absent). -/
def handle_json_path (st : OntoState) (identifier : String)
    (json_path : Option String) : OntoState :=
  match json_path with
  | none => st
  | some p =>
    if p == "" then st
    else
      let p := if st.json_dir != "" && !(decide (List.IsInfix st.json_dir.toList p.toList))
               then pathJoin st.json_dir p else p
      { st with jsonFileMapping := dictSet st.jsonFileMapping identifier p }

/-- The triples `rdflib.collection.Collection(graph, node, items)`
asserts for a fresh head node: a first/rest chain starting at `node`,
with one fresh cell per further item and `rdf:nil` closing the chain.
Empty `items` assert nothing (the constructor skips a falsy sequence). -/
def collectionChain (node : RDFNode) (items : List RDFNode) (ctr : Nat) :
    List Triple × Nat :=
  match items with
  | [] => ([], ctr)
  | [x] => ([(node, rdf_first, x), (node, rdf_rest, rdf_nil)], ctr)
  | x :: rest =>
    let nxt : RDFNode := .bnode ctr
    let (ts, c) := collectionChain nxt rest (ctr + 1)
    ((node, rdf_first, x) :: (node, rdf_rest, nxt) :: ts, c)

/-- The literal `_create_list` builds for one value (plain, or typed as
an `xsd:string` when `datatype` is set). -/
def listLit (datatype : Bool) (v : String) : RDFNode :=
  if datatype then RDFNode.lit v none (some (xsdNS ++ "string"))
  else RDFNode.lit v none none

/-- The loop body of `CreateOnto._create_list`: `cur` is the node the
current value is attached to, `ctr` the next fresh blank-node index. -/
def createListGo (datatype : Bool) (cur : Nat) (ctr : Nat) :
    List String → List Triple × Nat
  | [] => ([], ctr)
  | [v] =>
    ([(RDFNode.bnode cur, rdf_first, listLit datatype v),
      (RDFNode.bnode cur, rdf_rest, rdf_nil)], ctr)
  | v :: w :: rest =>
    ((RDFNode.bnode cur, rdf_first, listLit datatype v)
      :: (RDFNode.bnode cur, rdf_rest, RDFNode.bnode ctr)
      :: (createListGo datatype ctr (ctr + 1) (w :: rest)).1,
     (createListGo datatype ctr (ctr + 1) (w :: rest)).2)

/-- `CreateOnto._create_list`: returns the emitted triples, the index of
the head node, and the advanced blank-node counter. -/
def create_list (values : List String) (datatype : Bool) (ctr : Nat) :
    List Triple × Nat × Nat :=
  ((createListGo datatype ctr (ctr + 1) values).1, ctr,
   (createListGo datatype ctr (ctr + 1) values).2)

/-- A cardinality spec dict; `Option` fields model key presence
(`"exactly" in cardinality_config` and the like). -/
structure CardinalityConfig where
  property : String
  on_class : Option String := none
  exactly : Option Nat := none
  min : Option Nat := none
  max : Option Nat := none
  deriving DecidableEq, Repr

/-- A `Literal(n, datatype=XSD.nonNegativeInteger)`. -/
def nonNegIntLit (n : Nat) : RDFNode :=
  .lit (toString n) none (some (xsdNS ++ "nonNegativeInteger"))

/-- The statements `CreateOnto._add_cardinality` emits, in order:
equivalent-class scaffolding, the two-member intersection list, the
restriction header, then the branch on `exactly` / `min` / `max` with
`onClass` deduplicated between the `min` and `max` branches. -/
def cardinalityTriples (st : OntoState) (class_uri : RDFNode)
    (cfg : CardinalityConfig) (ctr : Nat) : List Triple × Nat :=
  let equiv_class : RDFNode := .bnode ctr
  let restriction : RDFNode := .bnode (ctr + 1)
  let intersection_node : RDFNode := .bnode (ctr + 2)
  let (listTs, c1) := collectionChain intersection_node [class_uri, restriction] (ctr + 3)
  let head :=
    [(class_uri, owl_equivalentClass, equiv_class),
     (equiv_class, rdf_type, owl_Class),
     (equiv_class, owl_intersectionOf, intersection_node)]
    ++ listTs
    ++ [(restriction, rdf_type, owl_Restriction),
        (restriction, owl_onProperty, st.resolve cfg.property)]
  let tail :=
    match cfg.exactly with
    | some n =>
      if truthyStr cfg.on_class then
        [(restriction, owl_qualifiedCardinality, nonNegIntLit n),
         (restriction, owl_onClass, st.resolve (cfg.on_class.getD ""))]
      else
        [(restriction, owl_cardinality, nonNegIntLit n)]
    | none =>
      (match cfg.min with
       | some n =>
         if truthyStr cfg.on_class then
           [(restriction, owl_minQualifiedCardinality, nonNegIntLit n),
            (restriction, owl_onClass, st.resolve (cfg.on_class.getD ""))]
         else [(restriction, owl_minCardinality, nonNegIntLit n)]
       | none => [])
      ++
      (match cfg.max with
       | some n =>
         if truthyStr cfg.on_class then
           [(restriction, owl_maxQualifiedCardinality, nonNegIntLit n)]
           ++ (if cfg.min.isNone then
                 [(restriction, owl_onClass, st.resolve (cfg.on_class.getD ""))]
               else [])
         else [(restriction, owl_maxCardinality, nonNegIntLit n)]
       | none => [])
  (head ++ tail, c1)

/-- `CreateOnto._add_cardinality` acting on the manager state. -/
def add_cardinality (st : OntoState) (class_uri : RDFNode)
    (cfg : CardinalityConfig) : OntoState :=
  let (ts, c) := cardinalityTriples st class_uri cfg st.nextBNode
  { st with graph := st.graph.addAll ts, nextBNode := c }

/-- A restriction config dict for `_add_restriction`; `Option` fields
model key presence. -/
structure RestrictionConfig where
  property : String
  some_values_from : Option String := none
  all_values_from : Option String := none
  has_value : Option String := none
  deriving DecidableEq, Repr

/-- The statements `CreateOnto._add_restriction` emits (the
`some_values_from` / `all_values_from` / `has_value` branches form an
if/elif chain on key presence). -/
def restrictionTriples (st : OntoState) (class_uri : RDFNode)
    (cfg : RestrictionConfig) (ctr : Nat) : List Triple × Nat :=
  let restriction : RDFNode := .bnode ctr
  let head :=
    [(class_uri, rdfs_subClassOf, restriction),
     (restriction, rdf_type, owl_Restriction),
     (restriction, owl_onProperty, st.resolve cfg.property)]
  let tail :=
    match cfg.some_values_from with
    | some v => [(restriction, owl_someValuesFrom, st.resolve v)]
    | none =>
      match cfg.all_values_from with
      | some v => [(restriction, owl_allValuesFrom, st.resolve v)]
      | none =>
        match cfg.has_value with
        | some v => [(restriction, owl_hasValue, st.resolve v)]
        | none => []
  (head ++ tail, ctr + 1)

/-- The keyword arguments of `CreateOnto.add_class` other than the
class name. -/
structure AddClassArgs where
  parent_class : Option String := none
  pref_label : Option LangValue := none
  comment : Option LangValue := none
  equivalent : Option String := none
  link_html : Option String := none
  one_of : Option (List String) := none
  cardinality : Option CardinalityConfig := none
  restrictions : Option (List RestrictionConfig) := none
  json_path : Option String := none
  deriving DecidableEq, Repr

/-- The statements `CreateOnto.add_class` emits for a resolved class
URI, in source order, together with the advanced blank-node counter. -/
def addClassTriples (st : OntoState) (class_uri : RDFNode) (args : AddClassArgs)
    (ctr : Nat) : List Triple × Nat :=
  let t1 : List Triple := [(class_uri, rdf_type, owl_Class)]
  let t2 := if truthyStr args.parent_class then
      [(class_uri, rdfs_subClassOf, st.resolve (args.parent_class.getD ""))] else []
  let t3 := if truthyStr args.equivalent then
      [(class_uri, owl_equivalentClass, st.resolve (args.equivalent.getD ""))] else []
  let (t4, c4) :=
    if truthyList args.one_of then
      let individual_uris := (args.one_of.getD []).map st.resolve
      let collection : RDFNode := .bnode ctr
      let restriction : RDFNode := .bnode (ctr + 1)
      let (chain, c) := collectionChain restriction individual_uris (ctr + 2)
      ([(class_uri, owl_equivalentClass, collection),
        (collection, rdf_type, owl_Class),
        (collection, owl_oneOf, restriction)] ++ chain, c)
    else ([], ctr)
  let (t5, c5) :=
    if truthyList args.restrictions then
      (args.restrictions.getD []).foldl
        (fun (acc : List Triple × Nat) cfg =>
          let (ts, c) := restrictionTriples st class_uri cfg acc.2
          (acc.1 ++ ts, c))
        ([], c4)
    else ([], c4)
  let (t6, c6) :=
    match args.cardinality with
    | some cfg => cardinalityTriples st class_uri cfg c5
    | none => ([], c5)
  let t7 := match args.link_html with
    | some l => if l == "" then [] else [(class_uri, rdfs_seeAlso, RDFNode.uri l)]
    | none => []
  let t8 := if truthyLV args.pref_label then
      multilingualTriples class_uri skos_prefLabel (args.pref_label.getD (.str "")) DEFAULT_LANG
    else []
  let t9 := if truthyLV args.comment then
      multilingualTriples class_uri rdfs_comment (args.comment.getD (.str "")) DEFAULT_LANG
    else []
  (t1 ++ t2 ++ t3 ++ t4 ++ t5 ++ t6 ++ t7 ++ t8 ++ t9, c6)

/-- `CreateOnto.add_class`.  The source performs no duplicate-identifier
check of any kind and has no `force` parameter: it unconditionally
registers the JSON path and adds the statements (set semantics). -/
def add_class (st : OntoState) (class_name : String) (args : AddClassArgs) :
    OntoState :=
  let st1 := handle_json_path st class_name args.json_path
  let class_uri := st1.resolve class_name
  let (ts, c) := addClassTriples st1 class_uri args st1.nextBNode
  { st1 with graph := st1.graph.addAll ts, nextBNode := c }

/-- The `property_types` dispatch dict in `add_property`. -/
def property_types : List (String × RDFNode) :=
  [("ObjectProperty", owl_ObjectProperty),
   ("DatatypeProperty", owl_DatatypeProperty),
   ("AnnotationProperty", owl_AnnotationProperty)]

/-- The keyword arguments of `CreateOnto.add_property` other than the
property name (a scalar `domain` is the singleton list, as the source
normalizes it). -/
structure AddPropertyArgs where
  property_type : String := "ObjectProperty"
  domain : List String := []
  range_ : Option String := none
  comment : Option LangValue := none
  pref_label : Option LangValue := none
  json_path : Option String := none
  deriving DecidableEq, Repr

/-- `CreateOnto.add_property`.  The JSON path is registered and the name
resolved before the property-type check raises `ValueError`, so an
invalid type leaves the graph untouched but may have updated
`json_file_mapping`; the returned state reflects exactly the mutations
made before the raise. -/
def add_property (st : OntoState) (property_name : String)
    (args : AddPropertyArgs) : OntoState × Except String Unit :=
  let st1 := handle_json_path st property_name args.json_path
  let property_uri := st1.resolve property_name
  match dictGet property_types args.property_type with
  | none => (st1, .error ("Invalid property type: " ++ args.property_type))
  | some ptype =>
    let t1 : List Triple := [(property_uri, rdf_type, ptype)]
    let t2 := args.domain.map (fun d => (property_uri, rdfs_domain, st1.resolve d))
    let t3 := match args.range_ with
      | some r => if r == "" then [] else [(property_uri, rdfs_range, st1.resolve r)]
      | none => []
    let t4 := if truthyLV args.pref_label then
        multilingualTriples property_uri skos_prefLabel (args.pref_label.getD (.str "")) DEFAULT_LANG
      else []
    let t5 := if truthyLV args.comment then
        multilingualTriples property_uri rdfs_comment (args.comment.getD (.str "")) DEFAULT_LANG
      else []
    ({ st1 with graph := st1.graph.addAll (t1 ++ t2 ++ t3 ++ t4 ++ t5) }, .ok ())

/-- A fresh manager state before `_init_basic_structure`. -/
def emptyState (base : String) : OntoState :=
  { base := base, graph := [], jsonFileMapping := [], nextBNode := 0, json_dir := "" }

/-- `CreateOnto._init_basic_structure`: the two global property
declarations (`hasValue`, `hasUnit`). -/
def init_basic_structure (st : OntoState) : OntoState :=
  let s1 := (add_property st "hasValue"
    { property_type := "DatatypeProperty", range_ := some "XSD:decimal",
      comment := some (.map [("en", "Numeric value."), ("fr", "Valeur numérique")]),
      pref_label := some (.map [("en", "has numeric value"), ("fr", "a valeur numérique")]) }).1
  (add_property s1 "hasUnit"
    { property_type := "DatatypeProperty", range_ := some "XSD:string",
      comment := some (.map [("en", "Unit of measurement."), ("fr", "Unité de mesure")]),
      pref_label := some (.map [("en", "has unit"), ("fr", "a unité")]) }).1

/-- A `CreateOnto()` instance constructed with the default base URI and
no JSON directory on disk. -/
def initState : OntoState := init_basic_structure (emptyState baseURI)

/-! ### `create_json_mapping`: the graph-to-JSON projection -/

/-- `str(node)` as used in `create_json_mapping`: a URI's full text, a
blank node's generated label, a literal's lexical form. -/
def nodeStr : RDFNode → String
  | .uri u => u
  | .bnode n => "n" ++ toString n
  | .lit v _ _ => v

/-- The fixed `translate` table: `prefLabel` and `subClassOf` rename,
`type` maps to `None` (meaning: drop the statement), and every other
key passes through (`translate.get(key, key)`). -/
def translateKey (k : String) : Option String :=
  if k = "prefLabel" then some "pref_label"
  else if k = "subClassOf" then some "parent_class"
  else if k = "type" then none
  else some k

/-- A collapsed language mapping: Python dict keys are the literal's
`.language` attribute, which is `None` for a typed or plain literal. -/
abbrev LangMap := List (Option String × String)

/-- A JSON field value: a plain string (a reference's local name) or a
language mapping. -/
inductive JVal where
  | s (v : String)
  | langMap (m : LangMap)
  deriving DecidableEq, Repr

/-- A flat per-identifier record, a Python dict in insertion order. -/
abbrev JRecord := List (String × JVal)

/-- Lexicographic code-point comparison of character lists: the strict
part of Python's string ordering. -/
def charListLT : List Char → List Char → Bool
  | _, [] => false
  | [], _ :: _ => true
  | a :: as, b :: bs =>
    if a < b then true else if b < a then false else charListLT as bs

/-- Python string comparison `a <= b` (code-point lexicographic). -/
def strLE (a b : String) : Bool := a == b || charListLT a.data b.data

/-- Comparison of language keys, `None` ordered first (Python would
raise comparing `None` with `str`; the source only ever sorts uniform
string keys, where this coincides with Python's order). -/
def optKeyLE : Option String → Option String → Bool
  | none, _ => true
  | some _, none => false
  | some a, some b => strLE a b

/-- Ordered insertion for `sortPairs`. -/
def insertSorted (x : Option String × String) : LangMap → LangMap
  | [] => [x]
  | y :: ys => if optKeyLE x.1 y.1 then x :: y :: ys else y :: insertSorted x ys

/-- `dict(sorted(tmp.items()))`: sort a language mapping by key.  (With
the unique keys a Python dict guarantees, any key-sort agrees with
Python's tuple sort.) -/
def sortPairs (l : LangMap) : LangMap := l.foldr insertSorted []

/-- `d.update(other)` on a Python dict. -/
def pyDictUpdate {α β : Type} [DecidableEq α] (d other : List (α × β)) :
    List (α × β) :=
  other.foldl (fun acc kv => dictSet acc kv.1 kv.2) d

/-- The value-shaping dispatch in `create_json_mapping`: a `URIRef`
becomes its local name, a `Literal` a single-entry language mapping
keyed by its (possibly absent) language tag, anything else (a blank
node) is skipped. -/
def shapeVal : RDFNode → Option JVal
  | .uri u => some (.s (localName u))
  | .lit v l _ => some (.langMap [(l, v)])
  | .bnode _ => none

/-- One iteration of the `create_json_mapping` loop body on the
accumulated `data` dict.  When an existing value and the new fragment
are both language mappings they are merged (`tmp.update(val)`) and
re-sorted; otherwise the new value overwrites.  (If the existing value
is a dict and the new one a plain string the source would raise inside
`dict.update`; no statement mix produced by this code base reaches that
combination.) -/
def jsonMappingStep (data : List (String × JRecord)) (t : Triple) :
    List (String × JRecord) :=
  let id := localName (nodeStr t.1)
  match translateKey (localName (nodeStr t.2.1)) with
  | none => data
  | some key =>
    match shapeVal t.2.2 with
    | none => data
    | some val =>
      let rec0 := (dictGet data id).getD []
      let val' :=
        match dictGet rec0 key, val with
        | some (.langMap old), .langMap new =>
          JVal.langMap (sortPairs (pyDictUpdate old new))
        | _, _ => val
      dictSet data id (dictSet rec0 key val')

/-- `CreateOnto.create_json_mapping`: fold the loop body over the graph
in statement order. -/
def create_json_mapping (g : RDFGraph) : List (String × JRecord) :=
  g.foldl jsonMappingStep []

/-! ### `dump_to_json` -/

/-- The fixed output `key_order` (after `id`). -/
def key_order : List String := ["parent_class", "pref_label", "comment"]

/-- Record normalization in the grouping loop: start from
`tmp = ("id" -> id)`, move the `key_order` fields over in order
(`data.pop(item, None)`), then `tmp.update(data)` with the rest. -/
def reorderRecord (id : String) (data : JRecord) : JRecord :=
  let start : JRecord × JRecord := ([("id", JVal.s id)], data)
  let res := key_order.foldl (fun acc k =>
    match dictGet acc.2 k with
    | none => acc
    | some v => (acc.1 ++ [(k, v)], dictRemove acc.2 k)) start
  pyDictUpdate res.1 res.2

/-- The `file_grouping` dict: per owning file (`none` for unmapped
identifiers), the normalized records keyed by identifier, both levels
in insertion order. -/
def fileGrouping (mapping : List (String × JRecord))
    (fileMap : List (String × String)) :
    List (Option String × List (String × JRecord)) :=
  mapping.foldl (fun fg idData =>
    let file := dictGet fileMap idData.1
    let group := (dictGet fg file).getD []
    dictSet fg file (dictSet group idData.1 (reorderRecord idData.1 idData.2))) []

/-- The per-file output loop: emit the records of all pre-existing
identifiers in their on-disk order (`entries.pop(id)`, raising
`KeyError(id)` when the graph grouping has no such entry), then every
remaining entry in collection order.  The error value carries the
Python `KeyError` key. -/
def rebuildOutput (existing : List String) (entries : List (String × JRecord)) :
    Except (Option String) (List JRecord) :=
  match existing with
  | [] => .ok (entries.map Prod.snd)
  | id :: rest =>
    match dictGet entries id with
    | none => .error (some id)
    | some data =>
      match rebuildOutput rest (dictRemove entries id) with
      | .error e => .error e
      | .ok out => .ok (data :: out)

/-- The file-writing loop of `dump_to_json`: skip the unmapped group,
read each target file's existing identifier order from `disk` (an
absent entry models a file that does not exist yet), rebuild, and
write.  A `KeyError` aborts the loop; files already written stay
written, the failing file is not. -/
def writeFiles (disk : List (String × List String)) :
    List (Option String × List (String × JRecord)) →
    List (String × List JRecord) × Except (Option String) Unit
  | [] => ([], Except.ok ())
  | (none, _) :: rest => writeFiles disk rest
  | (some f, entries) :: rest =>
    let existing := (dictGet disk f).getD []
    match rebuildOutput existing entries with
    | .error e => ([], .error e)
    | .ok out =>
      let res := writeFiles disk rest
      ((f, out) :: res.1, res.2)

/-- Result of a dump: the files written with their contents, and the
final outcome.  `outcome = .error (some id)` models the `KeyError`
raised by `entries.pop(id)`; `outcome = .error none` models the
`KeyError: None` raised by the final `file_grouping[None]` access when
no unmapped group exists. -/
structure DumpResult where
  written : List (String × List JRecord)
  outcome : Except (Option String) Unit
  deriving Repr

/-- `CreateOnto.dump_to_json` on an already-derived mapping: group by
file, write every mapped group, then read `file_grouping[None]` for the
unmapped-entries warning — an access that raises `KeyError` whenever
every identifier was mapped to a file. -/
def dump_to_json (mapping : List (String × JRecord))
    (fileMap : List (String × String))
    (disk : List (String × List String)) : DumpResult :=
  let fg := fileGrouping mapping fileMap
  let res := writeFiles disk fg
  match res.2 with
  | .error e => { written := res.1, outcome := .error e }
  | .ok _ =>
    match dictGet fg (none : Option String) with
    | none => { written := res.1, outcome := .error none }
    | some _ => { written := res.1, outcome := .ok () }

/-- `CreateOnto.dump_to_json` from a manager state and the current disk
contents. -/
def dump_state (st : OntoState) (disk : List (String × List String)) :
    DumpResult :=
  dump_to_json (create_json_mapping st.graph) st.jsonFileMapping disk

/-! ### The item cache (`modification_utils.JSONOntology`) -/

/-- `modification_utils.OntologyItem`: id, labels, comments, source
file, and an optional parent item. -/
inductive OntologyItem where
  | mk (id : String) (pref_label : List (String × String))
       (comment : List (String × String)) (sourcefile : String)
       (parent : Option OntologyItem)
  deriving Repr

/-- The `id` property. -/
def OntologyItem.id : OntologyItem → String
  | .mk i _ _ _ _ => i

/-- `JSONOntology._add_entry` acting on the `_entries` dict: without
`force`, an entry whose id is already a key raises
`ValueError("Entry with ID ... already exists")`; otherwise the entry
is stored under its id. -/
def JSONOntology.addEntryImpl (entries : List (String × OntologyItem))
    (entry : OntologyItem) (force : Bool) :
    Except String (List (String × OntologyItem)) :=
  if !force && entries.any (fun p => p.1 = entry.id) then
    .error ("Entry with ID " ++ entry.id ++ " already exists")
  else
    .ok (dictSet entries entry.id entry)

/-! ### Association-list lemmas -/

theorem dictGet_cons {α β : Type} [DecidableEq α] (a : α) (b : β)
    (d : List (α × β)) (k : α) :
    dictGet ((a, b) :: d) k = if a = k then some b else dictGet d k := by
  by_cases h : a = k <;> simp [dictGet, List.find?_cons, h]

theorem dictGet_eq_none_iff {α β : Type} [DecidableEq α]
    {d : List (α × β)} {k : α} :
    dictGet d k = none ↔ k ∉ d.map Prod.fst := by
  induction d with
  | nil => simp [dictGet]
  | cons p d ih =>
    obtain ⟨a, b⟩ := p
    rw [dictGet_cons, List.map_cons, List.mem_cons]
    by_cases h : a = k
    · simp [h]
    · have hka : ¬ k = a := fun he => h he.symm
      rw [if_neg h, ih]
      constructor
      · intro hm hc
        exact hc.elim hka hm
      · intro hc hm
        exact hc (Or.inr hm)

theorem mem_of_dictGet_eq_some {α β : Type} [DecidableEq α]
    {d : List (α × β)} {k : α} {v : β} (h : dictGet d k = some v) :
    (k, v) ∈ d := by
  induction d with
  | nil => simp [dictGet] at h
  | cons p d ih =>
    obtain ⟨a, b⟩ := p
    rw [dictGet_cons] at h
    by_cases ha : a = k
    · rw [if_pos ha] at h
      obtain rfl := ha
      obtain rfl : b = v := Option.some.inj h
      exact List.mem_cons_self _ _
    · rw [if_neg ha] at h
      exact List.mem_cons_of_mem _ (ih h)

theorem dictGet_eq_some_of_mem {α β : Type} [DecidableEq α]
    {d : List (α × β)} {k : α} {v : β} (hd : keysNodup d) (h : (k, v) ∈ d) :
    dictGet d k = some v := by
  induction d with
  | nil => simp at h
  | cons p d ih =>
    obtain ⟨a, b⟩ := p
    rw [keysNodup, List.map_cons, List.nodup_cons] at hd
    rw [dictGet_cons]
    rcases List.mem_cons.mp h with h1 | h2
    · rw [Prod.mk.injEq] at h1
      rw [if_pos h1.1.symm, h1.2]
    · have hak : a ≠ k := by
        rintro rfl
        exact hd.1 (List.mem_map.mpr ⟨(a, v), h2, rfl⟩)
      rw [if_neg hak]
      exact ih hd.2 h2

theorem dictGet_congr_perm {α β : Type} [DecidableEq α]
    {d e : List (α × β)} (hd : keysNodup d) (hperm : d.Perm e) (k : α) :
    dictGet d k = dictGet e k := by
  have he : keysNodup e := ((hperm.map Prod.fst).nodup_iff).mp hd
  cases hv : dictGet d k with
  | some v =>
    exact (dictGet_eq_some_of_mem he (hperm.mem_iff.mp (mem_of_dictGet_eq_some hv))).symm
  | none =>
    rw [dictGet_eq_none_iff] at hv
    symm
    rw [dictGet_eq_none_iff]
    exact fun hk => hv (((hperm.map Prod.fst).mem_iff).mpr hk)

theorem dictGet_append {α β : Type} [DecidableEq α]
    (d e : List (α × β)) (k : α) :
    dictGet (d ++ e) k =
      match dictGet d k with
      | some v => some v
      | none => dictGet e k := by
  induction d with
  | nil => simp [dictGet]
  | cons p d ih =>
    obtain ⟨a, b⟩ := p
    rw [List.cons_append, dictGet_cons, dictGet_cons]
    by_cases h : a = k
    · rw [if_pos h, if_pos h]
    · rw [if_neg h, if_neg h, ih]

theorem dictGet_map_overwrite_self {α β : Type} [DecidableEq α]
    (d : List (α × β)) (k : α) (v : β) :
    dictGet (d.map (fun p => if p.1 = k then (k, v) else p)) k =
      if d.any (fun p => p.1 = k) then some v else none := by
  induction d with
  | nil => simp [dictGet]
  | cons p d ih =>
    obtain ⟨a, b⟩ := p
    rw [List.map_cons]
    by_cases h : a = k
    · subst h
      rw [show (if (a, b).1 = a then (a, v) else (a, b)) = (a, v) by simp]
      rw [dictGet_cons, if_pos rfl, List.any_cons]
      simp
    · rw [show (if (a, b).1 = k then (k, v) else (a, b)) = (a, b) by simp [h]]
      rw [dictGet_cons, if_neg h, ih, List.any_cons]
      rw [show decide (a = k) = false by simp [h], Bool.false_or]

theorem dictGet_map_overwrite_ne {α β : Type} [DecidableEq α]
    (d : List (α × β)) (k k' : α) (v : β) (hne : k' ≠ k) :
    dictGet (d.map (fun p => if p.1 = k then (k, v) else p)) k' = dictGet d k' := by
  induction d with
  | nil => simp
  | cons p d ih =>
    obtain ⟨a, b⟩ := p
    rw [List.map_cons]
    by_cases h : a = k
    · subst h
      rw [show (if (a, b).1 = a then (a, v) else (a, b)) = (a, v) by simp]
      rw [dictGet_cons, dictGet_cons, if_neg (fun hc => hne hc.symm),
        if_neg (fun hc => hne hc.symm), ih]
    · rw [show (if (a, b).1 = k then (k, v) else (a, b)) = (a, b) by simp [h]]
      rw [dictGet_cons, dictGet_cons, ih]

theorem dictGet_dictSet_self {α β : Type} [DecidableEq α]
    (d : List (α × β)) (k : α) (v : β) :
    dictGet (dictSet d k v) k = some v := by
  unfold dictSet
  by_cases h : d.any (fun p => p.1 = k)
  · rw [if_pos h, dictGet_map_overwrite_self, if_pos h]
  · rw [if_neg h, dictGet_append]
    have hnone : dictGet d k = none := by
      rw [dictGet_eq_none_iff]
      intro hm
      rcases List.mem_map.mp hm with ⟨p, hp, hpk⟩
      exact h (List.any_eq_true.mpr ⟨p, hp, by simp [hpk]⟩)
    rw [hnone]
    show dictGet ((k, v) :: []) k = some v
    rw [dictGet_cons, if_pos rfl]

theorem dictGet_dictSet_ne {α β : Type} [DecidableEq α]
    (d : List (α × β)) (k k' : α) (v : β) (hne : k' ≠ k) :
    dictGet (dictSet d k v) k' = dictGet d k' := by
  unfold dictSet
  by_cases h : d.any (fun p => p.1 = k)
  · rw [if_pos h, dictGet_map_overwrite_ne d k k' v hne]
  · rw [if_neg h, dictGet_append]
    cases hv : dictGet d k' with
    | some w => rfl
    | none =>
      show dictGet ((k, v) :: []) k' = none
      rw [dictGet_cons, if_neg (fun hc => hne hc.symm)]
      rfl

theorem keys_dictSet_of_mem {α β : Type} [DecidableEq α]
    (d : List (α × β)) (k : α) (v : β) (h : k ∈ d.map Prod.fst) :
    (dictSet d k v).map Prod.fst = d.map Prod.fst := by
  have hany : d.any (fun p => p.1 = k) := by
    rcases List.mem_map.mp h with ⟨p, hp, hpk⟩
    exact List.any_eq_true.mpr ⟨p, hp, by simp [hpk]⟩
  unfold dictSet
  rw [if_pos hany, List.map_map]
  apply List.map_congr_left
  intro p _
  by_cases hp : p.1 = k <;> simp [hp]

theorem keys_dictSet_of_not_mem {α β : Type} [DecidableEq α]
    (d : List (α × β)) (k : α) (v : β) (h : k ∉ d.map Prod.fst) :
    (dictSet d k v).map Prod.fst = d.map Prod.fst ++ [k] := by
  have hany : ¬ d.any (fun p => p.1 = k) := by
    intro hc
    rcases List.any_eq_true.mp hc with ⟨p, hp, hpk⟩
    simp only [decide_eq_true_eq] at hpk
    exact h (List.mem_map.mpr ⟨p, hp, hpk⟩)
  unfold dictSet
  rw [if_neg hany, List.map_append]
  rfl

theorem keysNodup_dictSet {α β : Type} [DecidableEq α]
    (d : List (α × β)) (k : α) (v : β) (h : keysNodup d) :
    keysNodup (dictSet d k v) := by
  unfold keysNodup
  by_cases hk : k ∈ d.map Prod.fst
  · rw [keys_dictSet_of_mem d k v hk]
    exact h
  · rw [keys_dictSet_of_not_mem d k v hk]
    rw [keysNodup] at h
    refine List.Nodup.append h (List.nodup_singleton k) ?_
    intro x hx hx2
    rw [List.mem_singleton] at hx2
    exact hk (hx2 ▸ hx)

theorem dictGet_dictRemove_ne {α β : Type} [DecidableEq α]
    (d : List (α × β)) (k k' : α) (hne : k' ≠ k) :
    dictGet (dictRemove d k) k' = dictGet d k' := by
  induction d with
  | nil => rfl
  | cons p d ih =>
    obtain ⟨a, b⟩ := p
    unfold dictRemove at ih ⊢
    rw [List.filter_cons]
    by_cases ha : a = k
    · rw [show (decide ((a, b).1 ≠ k)) = false by simp [ha], if_neg (by simp)]
      rw [ih, dictGet_cons, if_neg (ha ▸ fun hc => hne hc.symm)]
    · rw [show (decide ((a, b).1 ≠ k)) = true by simp [ha], if_pos (by simp)]
      rw [dictGet_cons, dictGet_cons, ih]

theorem keys_dictRemove_subset {α β : Type} [DecidableEq α]
    (d : List (α × β)) (k : α) :
    (dictRemove d k).map Prod.fst ⊆ d.map Prod.fst := by
  intro x hx
  rcases List.mem_map.mp hx with ⟨p, hp, rfl⟩
  exact List.mem_map.mpr ⟨p, List.mem_of_mem_filter hp, rfl⟩

/-! ### Graph lemmas -/

theorem RDFGraph.add_of_mem {g : RDFGraph} {t : Triple} (h : t ∈ g) :
    g.add t = g := by
  simp [RDFGraph.add, h]

theorem RDFGraph.mem_add (g : RDFGraph) (t u : Triple) :
    u ∈ g.add t ↔ u ∈ g ∨ u = t := by
  by_cases h : t ∈ g
  · simp only [RDFGraph.add, h, if_true]
    exact ⟨Or.inl, fun hu => hu.elim id (fun he => he ▸ h)⟩
  · simp [RDFGraph.add, h]

theorem RDFGraph.mem_addAll (g : RDFGraph) (l : List Triple) (u : Triple) :
    u ∈ g.addAll l ↔ u ∈ g ∨ u ∈ l := by
  induction l generalizing g with
  | nil => simp [RDFGraph.addAll]
  | cons t l ih =>
    show u ∈ RDFGraph.addAll (g.add t) l ↔ _
    rw [ih, RDFGraph.mem_add]
    simp only [List.mem_cons]
    tauto

theorem RDFGraph.addAll_of_forall_mem {g : RDFGraph} {l : List Triple}
    (h : ∀ t ∈ l, t ∈ g) : g.addAll l = g := by
  induction l generalizing g with
  | nil => rfl
  | cons t l ih =>
    show RDFGraph.addAll (g.add t) l = g
    rw [RDFGraph.add_of_mem (h t (List.mem_cons_self _ _))]
    exact ih (fun u hu => h u (List.mem_cons_of_mem _ hu))

theorem RDFGraph.addAll_eq_append {g : RDFGraph} {l : List Triple}
    (hnd : l.Nodup) (hdisj : ∀ t ∈ l, t ∉ g) : g.addAll l = g ++ l := by
  induction l generalizing g with
  | nil => simp [RDFGraph.addAll]
  | cons t l ih =>
    show RDFGraph.addAll (g.add t) l = _
    have ht : t ∉ g := hdisj t (List.mem_cons_self _ _)
    have hadd : g.add t = g ++ [t] := by simp [RDFGraph.add, ht]
    rw [hadd, ih (List.nodup_cons.mp hnd).2]
    · simp
    · intro u hu
      simp only [List.mem_append, List.mem_singleton, not_or]
      exact ⟨hdisj u (List.mem_cons_of_mem _ hu),
             fun he => (List.nodup_cons.mp hnd).1 (he ▸ hu)⟩

theorem RDFGraph.addAll_idem (g : RDFGraph) (l : List Triple) :
    (g.addAll l).addAll l = g.addAll l :=
  RDFGraph.addAll_of_forall_mem
    (fun t ht => (RDFGraph.mem_addAll g l t).mpr (Or.inr ht))

/-! ### Sorting lemmas -/

theorem charListLT_eq_of_not_lt :
    ∀ (as bs : List Char), charListLT as bs = false → charListLT bs as = false →
      as = bs := by
  intro as
  induction as with
  | nil =>
    intro bs h1 _
    cases bs with
    | nil => rfl
    | cons b bs => simp [charListLT] at h1
  | cons a as ih =>
    intro bs h1 h2
    cases bs with
    | nil => simp [charListLT] at h2
    | cons b bs =>
      rcases lt_trichotomy a b with hab | hab | hab
      · rw [charListLT, if_pos hab] at h1
        exact absurd h1 (by simp)
      · subst hab
        rw [charListLT, if_neg (lt_irrefl a), if_neg (lt_irrefl a)] at h1 h2
        rw [ih bs h1 h2]
      · rw [charListLT, if_neg (not_lt_of_lt hab), if_pos hab] at h2
        exact absurd h2 (by simp)

theorem strLE_total (a b : String) : strLE a b = true ∨ strLE b a = true := by
  by_cases hab : a = b
  · subst hab
    left
    simp [strLE]
  · cases h1 : charListLT a.data b.data with
    | true => left; simp [strLE, h1]
    | false =>
      cases h2 : charListLT b.data a.data with
      | true => right; simp [strLE, h2]
      | false =>
        exfalso
        apply hab
        have hd := charListLT_eq_of_not_lt a.data b.data h1 h2
        cases a
        cases b
        exact congrArg String.mk hd

theorem optKeyLE_total (x y : Option String) :
    optKeyLE x y = true ∨ optKeyLE y x = true := by
  cases x with
  | none => left; rfl
  | some a =>
    cases y with
    | none => right; rfl
    | some b => exact strLE_total a b

/-- Sortedness of a language mapping by key, as the adjacent-pairs
chain condition. -/
def sortedByKey (l : LangMap) : Prop :=
  List.Chain' (fun x y => optKeyLE x.1 y.1 = true) l

theorem insertSorted_sorted (x : Option String × String) (l : LangMap)
    (h : sortedByKey l) : sortedByKey (insertSorted x l) := by
  induction l with
  | nil => simp [insertSorted, sortedByKey]
  | cons y ys ih =>
    simp only [insertSorted]
    by_cases hxy : optKeyLE x.1 y.1 = true
    · rw [if_pos hxy]
      exact List.chain'_cons.mpr ⟨hxy, h⟩
    · rw [if_neg hxy]
      have hyx : optKeyLE y.1 x.1 = true := (optKeyLE_total x.1 y.1).resolve_left hxy
      cases ys with
      | nil =>
        simp only [insertSorted]
        exact List.chain'_cons.mpr ⟨hyx, List.chain'_singleton x⟩
      | cons z zs =>
        have hyz : optKeyLE y.1 z.1 = true := (List.chain'_cons.mp h).1
        have htail : sortedByKey (z :: zs) := (List.chain'_cons.mp h).2
        simp only [insertSorted]
        by_cases hxz : optKeyLE x.1 z.1 = true
        · rw [if_pos hxz]
          exact List.chain'_cons.mpr ⟨hyx, List.chain'_cons.mpr ⟨hxz, htail⟩⟩
        · rw [if_neg hxz]
          have hrec := ih htail
          rw [show insertSorted x (z :: zs) = z :: insertSorted x zs by
            simp only [insertSorted]; rw [if_neg hxz]] at hrec
          exact List.chain'_cons.mpr ⟨hyz, hrec⟩

theorem insertSorted_perm (x : Option String × String) (l : LangMap) :
    (insertSorted x l).Perm (x :: l) := by
  induction l with
  | nil => simp [insertSorted]
  | cons y ys ih =>
    simp only [insertSorted]
    by_cases h : optKeyLE x.1 y.1 = true
    · rw [if_pos h]
    · rw [if_neg h]
      exact (ih.cons y).trans (List.Perm.swap x y ys)

theorem sortPairs_perm (l : LangMap) : (sortPairs l).Perm l := by
  induction l with
  | nil => rfl
  | cons x xs ih =>
    show (insertSorted x (sortPairs xs)).Perm (x :: xs)
    exact (insertSorted_perm x (sortPairs xs)).trans (ih.cons x)

theorem sortPairs_sorted (l : LangMap) : sortedByKey (sortPairs l) := by
  induction l with
  | nil => exact List.chain'_nil
  | cons x xs ih => exact insertSorted_sorted x (sortPairs xs) ih

theorem dictGet_sortPairs (l : LangMap) (hk : keysNodup l) (k : Option String) :
    dictGet (sortPairs l) k = dictGet l k := by
  have hperm := sortPairs_perm l
  have hknd : keysNodup (sortPairs l) := ((hperm.map Prod.fst).nodup_iff).mpr hk
  exact dictGet_congr_perm hknd hperm k

/-! ### Statement-shape predicates used by the counting claims -/

/-- A "first" statement. -/
def isFirstStmt (t : Triple) : Bool := t.2.1 = rdf_first

/-- A "rest" statement. -/
def isRestStmt (t : Triple) : Bool := t.2.1 = rdf_rest

/-- A "rest" statement pointing at an anonymous node. -/
def isRestToBNode (t : Triple) : Bool :=
  isRestStmt t && match t.2.2 with | RDFNode.bnode _ => true | _ => false

/-- A "rest" statement pointing at the list terminator `rdf:nil`. -/
def isRestToNil (t : Triple) : Bool := isRestStmt t && t.2.2 = rdf_nil

theorem createListGo_counts (datatype : Bool) (values : List String) :
    ∀ (cur ctr : Nat), values ≠ [] →
      ((createListGo datatype cur ctr values).1.countP isFirstStmt = values.length)
      ∧ ((createListGo datatype cur ctr values).1.countP isRestStmt = values.length)
      ∧ ((createListGo datatype cur ctr values).1.countP isRestToBNode
          = values.length - 1)
      ∧ ((createListGo datatype cur ctr values).1.countP isRestToNil = 1) := by
  induction values with
  | nil => intro cur ctr h; exact absurd rfl h
  | cons v rest ih =>
    intro cur ctr _
    cases rest with
    | nil =>
      refine ⟨?_, ?_, ?_, ?_⟩ <;>
        simp [createListGo, isFirstStmt, isRestStmt, isRestToBNode, isRestToNil,
          List.countP_cons, rdf_nil,
          show rdf_first ≠ rdf_rest by decide,
          show rdf_rest ≠ rdf_first by decide]
    | cons w rest' =>
      obtain ⟨ih1, ih2, ih3, ih4⟩ := ih ctr (ctr + 1) (by simp)
      refine ⟨?_, ?_, ?_, ?_⟩ <;>
        simp [createListGo, List.countP_cons, isFirstStmt, isRestStmt,
          isRestToBNode, isRestToNil, ih1, ih2, ih3, ih4,
          show rdf_first ≠ rdf_rest by decide,
          show rdf_rest ≠ rdf_first by decide,
          show ∀ k, RDFNode.bnode k ≠ rdf_nil by intro k h; simp [rdf_nil] at h]

/-- C6: for every nonempty sequence of N values, `_create_list` emits
exactly N "first" statements and exactly N "rest" statements, of which
N−1 point at a freshly allocated anonymous node and the last one points
at the `rdf:nil` list terminator, regardless of the values and of the
`datatype` flag. -/
theorem C6_create_list_counts (values : List String) (datatype : Bool) (ctr : Nat)
    (hne : values ≠ []) :
    ((create_list values datatype ctr).1.countP isFirstStmt = values.length)
    ∧ ((create_list values datatype ctr).1.countP isRestStmt = values.length)
    ∧ ((create_list values datatype ctr).1.countP isRestToBNode = values.length - 1)
    ∧ ((create_list values datatype ctr).1.countP isRestToNil = 1) :=
  createListGo_counts datatype values ctr (ctr + 1) hne

/-- C6 witness: the counts at the concrete enumeration
`["GB", "TB", "PB"]`. -/
theorem C6_create_list_counts_witness :
    (["GB", "TB", "PB"] : List String) ≠ []
    ∧ ((create_list ["GB", "TB", "PB"] true 0).1.countP isFirstStmt = 3
       ∧ (create_list ["GB", "TB", "PB"] true 0).1.countP isRestStmt = 3
       ∧ (create_list ["GB", "TB", "PB"] true 0).1.countP isRestToBNode = 2
       ∧ (create_list ["GB", "TB", "PB"] true 0).1.countP isRestToNil = 1) :=
  ⟨by decide, C6_create_list_counts ["GB", "TB", "PB"] true 0 (by decide)⟩

/-- C2: with `on_class` present (truthy), an `exactly` spec emits
exactly one `qualifiedCardinality` statement and exactly one `onClass`
statement, and a spec with both `min` and `max` emits exactly one
`onClass` statement in total. -/
theorem C2_cardinality_onClass_once (st : OntoState) (class_uri : RDFNode)
    (cfg : CardinalityConfig) (ctr : Nat) (hoc : truthyStr cfg.on_class = true) :
    (∀ n, cfg.exactly = some n →
      ((cardinalityTriples st class_uri cfg ctr).1.countP
          (fun t => t.2.1 = owl_qualifiedCardinality) = 1)
      ∧ ((cardinalityTriples st class_uri cfg ctr).1.countP
          (fun t => t.2.1 = owl_onClass) = 1))
    ∧ (∀ a b, cfg.exactly = none → cfg.min = some a → cfg.max = some b →
      ((cardinalityTriples st class_uri cfg ctr).1.countP
          (fun t => t.2.1 = owl_onClass) = 1)) := by
  constructor
  · intro n hn
    constructor <;>
      simp [cardinalityTriples, collectionChain, hn, hoc,
        List.countP_append, List.countP_cons,
        show owl_equivalentClass ≠ owl_qualifiedCardinality by decide,
        show rdf_type ≠ owl_qualifiedCardinality by decide,
        show owl_intersectionOf ≠ owl_qualifiedCardinality by decide,
        show rdf_first ≠ owl_qualifiedCardinality by decide,
        show rdf_rest ≠ owl_qualifiedCardinality by decide,
        show owl_onProperty ≠ owl_qualifiedCardinality by decide,
        show owl_onClass ≠ owl_qualifiedCardinality by decide,
        show owl_equivalentClass ≠ owl_onClass by decide,
        show rdf_type ≠ owl_onClass by decide,
        show owl_intersectionOf ≠ owl_onClass by decide,
        show rdf_first ≠ owl_onClass by decide,
        show rdf_rest ≠ owl_onClass by decide,
        show owl_onProperty ≠ owl_onClass by decide,
        show owl_qualifiedCardinality ≠ owl_onClass by decide]
  · intro a b he hmin hmax
    simp [cardinalityTriples, collectionChain, he, hmin, hmax, hoc,
      List.countP_append, List.countP_cons,
      show owl_equivalentClass ≠ owl_onClass by decide,
      show rdf_type ≠ owl_onClass by decide,
      show owl_intersectionOf ≠ owl_onClass by decide,
      show rdf_first ≠ owl_onClass by decide,
      show rdf_rest ≠ owl_onClass by decide,
      show owl_onProperty ≠ owl_onClass by decide,
      show owl_minQualifiedCardinality ≠ owl_onClass by decide,
      show owl_maxQualifiedCardinality ≠ owl_onClass by decide]

/-- C2 witness: the two example specs of the specification, at concrete
inputs. -/
theorem C2_cardinality_onClass_once_witness :
    ((cardinalityTriples initState (RDFNode.uri (baseURI ++ "C"))
        { property := "p", on_class := some "Foo", exactly := some 3 } 0).1.countP
        (fun t => t.2.1 = owl_qualifiedCardinality) = 1)
    ∧ ((cardinalityTriples initState (RDFNode.uri (baseURI ++ "C"))
        { property := "p", on_class := some "Foo", exactly := some 3 } 0).1.countP
        (fun t => t.2.1 = owl_onClass) = 1)
    ∧ ((cardinalityTriples initState (RDFNode.uri (baseURI ++ "C"))
        { property := "p", on_class := some "Foo", min := some 1, max := some 4 } 0).1.countP
        (fun t => t.2.1 = owl_onClass) = 1) :=
  ⟨((C2_cardinality_onClass_once initState (RDFNode.uri (baseURI ++ "C"))
      { property := "p", on_class := some "Foo", exactly := some 3 } 0 (by decide)).1
      3 rfl).1,
   ((C2_cardinality_onClass_once initState (RDFNode.uri (baseURI ++ "C"))
      { property := "p", on_class := some "Foo", exactly := some 3 } 0 (by decide)).1
      3 rfl).2,
   (C2_cardinality_onClass_once initState (RDFNode.uri (baseURI ++ "C"))
      { property := "p", on_class := some "Foo", min := some 1, max := some 4 } 0
      (by decide)).2 1 4 rfl rfl rfl⟩

theorem handle_json_path_graph (st : OntoState) (i : String) (p : Option String) :
    (handle_json_path st i p).graph = st.graph := by
  unfold handle_json_path
  cases p with
  | none => rfl
  | some q =>
    dsimp only
    split
    · rfl
    · rfl

theorem handle_json_path_base (st : OntoState) (i : String) (p : Option String) :
    (handle_json_path st i p).base = st.base := by
  unfold handle_json_path
  cases p with
  | none => rfl
  | some q =>
    dsimp only
    split
    · rfl
    · rfl

/-- C8 counterexample: a cardinality spec mixing `exactly` with `min`
and `max` is not rejected by `_add_cardinality` — the call completes
normally (the routine contains no validity check and cannot raise) and
produces exactly the statements of the corresponding pure-`exactly`
spec, silently ignoring `min` and `max`, instead of failing with a
fatal error as the claim requires. -/
theorem C8_mixed_cardinality_not_rejected :
    add_cardinality initState (RDFNode.uri (baseURI ++ "C"))
        { property := "p", exactly := some 2, min := some 1, max := some 4 }
      = add_cardinality initState (RDFNode.uri (baseURI ++ "C"))
        { property := "p", exactly := some 2 } := by decide

/-- C8 (amended): an unknown property-type keyword makes `add_property`
raise `ValueError` for that call and the graph holds exactly the
statements it held before; a cardinality spec mixing `exactly` with
`min`/`max` is not a fatal error: the `exactly` branch takes precedence
and `min`/`max` are silently ignored (the emitted statements equal
those of the spec with `min`/`max` removed).  Statements already
committed are never removed in either case. -/
theorem C8_invalid_configuration_amended
    (st : OntoState) (name : String) (args : AddPropertyArgs)
    (hbad : dictGet property_types args.property_type = none)
    (st' : OntoState) (class_uri : RDFNode) (cfg : CardinalityConfig)
    (ctr : Nat) (n : Nat) (hex : cfg.exactly = some n) :
    ((add_property st name args).2
        = Except.error ("Invalid property type: " ++ args.property_type)
      ∧ (add_property st name args).1.graph = st.graph)
    ∧ cardinalityTriples st' class_uri cfg ctr
        = cardinalityTriples st' class_uri { cfg with min := none, max := none } ctr := by
  refine ⟨⟨?_, ?_⟩, ?_⟩
  · unfold add_property
    rw [hbad]
  · unfold add_property
    rw [hbad]
    exact handle_json_path_graph st name args.json_path
  · simp [cardinalityTriples, hex]

/-- C8 witness: the amended behaviour at a concrete unknown property
type and a concrete mixed cardinality spec. -/
theorem C8_invalid_configuration_amended_witness :
    ((add_property initState "hasPart" { property_type := "FunctionalProperty" }).2
        = Except.error ("Invalid property type: " ++ "FunctionalProperty")
      ∧ (add_property initState "hasPart" { property_type := "FunctionalProperty" }).1.graph
        = initState.graph)
    ∧ cardinalityTriples initState (RDFNode.uri (baseURI ++ "C"))
        { property := "p", exactly := some 2, min := some 7 } 0
      = cardinalityTriples initState (RDFNode.uri (baseURI ++ "C"))
        { property := "p", exactly := some 2, min := none, max := none } 0 :=
  C8_invalid_configuration_amended initState "hasPart"
    { property_type := "FunctionalProperty" } (by decide)
    initState (RDFNode.uri (baseURI ++ "C"))
    { property := "p", exactly := some 2, min := some 7 } 0 2 rfl

/-- C5 counterexample: for the unbound-prefix token `"foo:bar"` with an
explicit `namespace` argument overriding the default, `_resolve_uri`
returns the token appended to the ontology's own namespace, not to the
overriding namespace — so the fallback does not honour the `namespace`
argument as the claim states. -/
theorem C5_resolve_fallback_ignores_namespace_argument :
    resolve_uri (nsTableFor baseURI) baseURI (some "http://example.org/other#") "foo:bar"
        = baseURI ++ "foo:bar"
    ∧ baseURI ++ "foo:bar" ≠ "http://example.org/other#" ++ "foo:bar" := by
  decide

/-- C5 (amended): for every token containing a colon, not starting with
`http://` or `https://`, whose lowercased prefix is unbound in the
namespace table, `_resolve_uri` returns the whole token resolved as a
local name in the ontology's own namespace — regardless of the
`namespace` argument — and never raises (the function is total on
string tokens). -/
theorem C5_unbound_prefix_fallback_amended
    (nsT : List (String × String)) (ontoNS : String) (ns : Option String)
    (tok : String)
    (h1 : startsWithStr tok "http://" = false)
    (h2 : startsWithStr tok "https://" = false)
    (pfxCh locCh : List Char)
    (hsplit : splitFirst ':' tok.data = some (pfxCh, locCh))
    (hlook : dictGet nsT (toLowerStr ⟨pfxCh⟩) = none) :
    resolve_uri nsT ontoNS ns tok = ontoNS ++ tok := by
  unfold resolve_uri
  rw [h1, h2]
  simp only [Bool.or_self, Bool.false_eq_true, if_false, hsplit, hlook]

/-- C5 witness: the amended fallback at the concrete unbound token
`"zz:thing"` with an overriding namespace argument. -/
theorem C5_unbound_prefix_fallback_amended_witness :
    resolve_uri (nsTableFor baseURI) baseURI (some owlNS) "zz:thing"
      = baseURI ++ "zz:thing" :=
  C5_unbound_prefix_fallback_amended (nsTableFor baseURI) baseURI (some owlNS)
    "zz:thing" (by decide) (by decide) "zz".data "thing".data (by decide) (by decide)

/-- C1 counterexample: `add_class` performs no duplicate-identifier
check (and has no `force` parameter at all): calling it a second time
with the identifier `"Foo"`, which already exists in the ontology,
completes normally and leaves the whole state — graph, file mapping and
blank-node counter — unchanged, i.e. the duplicate is silently
accepted instead of failing as the claim requires. -/
theorem C1_add_class_duplicate_silently_accepted :
    add_class (add_class initState "Foo"
        { parent_class := some "Bar", pref_label := some (.str "Foo label") }) "Foo"
      { parent_class := some "Bar", pref_label := some (.str "Foo label") }
    = add_class initState "Foo"
        { parent_class := some "Bar", pref_label := some (.str "Foo label") } := by
  decide

/-- C1 (amended): only the item cache enforces identifier uniqueness:
`JSONOntology._add_entry` without `force` fails with a
duplicate-identifier `ValueError` whenever the entry's id is already
present; `CreateOnto.add_class` performs no duplicate check and
silently re-accepts an existing identifier (re-adding a class leaves
the state unchanged, shown here at a concrete re-added class). -/
theorem C1_duplicate_identifier_amended
    (entries : List (String × OntologyItem)) (e : OntologyItem)
    (hdup : e.id ∈ entries.map Prod.fst) :
    (∃ msg, JSONOntology.addEntryImpl entries e false = Except.error msg)
    ∧ add_class (add_class initState "Node" { pref_label := some (.str "node") })
          "Node" { pref_label := some (.str "node") }
      = add_class initState "Node" { pref_label := some (.str "node") } := by
  constructor
  · have hany : entries.any (fun p => p.1 = e.id) = true := by
      rcases List.mem_map.mp hdup with ⟨p, hp, hpk⟩
      exact List.any_eq_true.mpr ⟨p, hp, by simp [hpk]⟩
    exact ⟨"Entry with ID " ++ e.id ++ " already exists",
      by simp [JSONOntology.addEntryImpl, hany]⟩
  · decide

/-- C1 witness: the amended duplicate failure at a concrete cache
holding an entry with id `"Job"`. -/
theorem C1_duplicate_identifier_amended_witness :
    (∃ msg, JSONOntology.addEntryImpl
        [("Job", OntologyItem.mk "Job" [("en", "Job")] [] "wf.json" none)]
        (OntologyItem.mk "Job" [("en", "Job 2")] [] "wf.json" none) false
      = Except.error msg)
    ∧ add_class (add_class initState "Node" { pref_label := some (.str "node") })
          "Node" { pref_label := some (.str "node") }
      = add_class initState "Node" { pref_label := some (.str "node") } :=
  C1_duplicate_identifier_amended
    [("Job", OntologyItem.mk "Job" [("en", "Job")] [] "wf.json" none)]
    (OntologyItem.mk "Job" [("en", "Job 2")] [] "wf.json" none)
    (by simp [OntologyItem.id])

theorem translateKey_ne_type (k : String) : translateKey k ≠ some "type" := by
  intro h
  unfold translateKey at h
  split_ifs at h with h1 h2 h3
  · exact absurd (Option.some.inj h) (by decide)
  · exact absurd (Option.some.inj h) (by decide)
  · exact h3 (Option.some.inj h)

theorem jsonMappingStep_noType (data : List (String × JRecord)) (t : Triple)
    (h : ∀ i r, dictGet data i = some r → dictGet r "type" = none) :
    ∀ i r, dictGet (jsonMappingStep data t) i = some r →
      dictGet r "type" = none := by
  intro i r hr
  unfold jsonMappingStep at hr
  cases htr : translateKey (localName (nodeStr t.2.1)) with
  | none =>
    rw [htr] at hr
    exact h i r hr
  | some key =>
    rw [htr] at hr
    cases hsv : shapeVal t.2.2 with
    | none =>
      rw [hsv] at hr
      exact h i r hr
    | some val =>
      rw [hsv] at hr
      dsimp only at hr
      by_cases hid : i = localName (nodeStr t.1)
      · rw [hid, dictGet_dictSet_self] at hr
        obtain rfl := Option.some.inj hr
        have hk : "type" ≠ key := fun he =>
          translateKey_ne_type _ (he ▸ htr)
        rw [dictGet_dictSet_ne _ _ _ _ hk]
        cases hd : dictGet data (localName (nodeStr t.1)) with
        | none => rfl
        | some r0 => exact h _ r0 hd
      · rw [dictGet_dictSet_ne _ _ _ _ hid] at hr
        exact h i r hr

theorem foldl_jsonMappingStep_noType (g : List Triple) :
    ∀ (data : List (String × JRecord)),
      (∀ i r, dictGet data i = some r → dictGet r "type" = none) →
      ∀ i r, dictGet (g.foldl jsonMappingStep data) i = some r →
        dictGet r "type" = none := by
  induction g with
  | nil => intro data h; exact h
  | cons t g ih =>
    intro data h
    exact ih (jsonMappingStep data t) (jsonMappingStep_noType data t h)

/-- C7: adding the class `"Foo"` with parent `"Bar"` yields a derived
record containing `parent_class = "Bar"` and no `"type"` field; in
general, no record produced by `create_json_mapping` ever contains a
`"type"` field, because the translation table maps the `type` predicate
to drop and maps no predicate to the field name `"type"`. -/
theorem C7_parent_class_and_no_type
    (g : RDFGraph) (i : String) (r : JRecord)
    (hr : dictGet (create_json_mapping g) i = some r) :
    (dictGet (create_json_mapping (add_class initState "Foo"
        { parent_class := some "Bar", pref_label := some (.str "Foo") }).graph) "Foo"
      = some [("parent_class", JVal.s "Bar"),
              ("pref_label", JVal.langMap [(some "en", "Foo")])])
    ∧ dictGet r "type" = none := by
  refine ⟨by decide, ?_⟩
  exact foldl_jsonMappingStep_noType g []
    (by intro a b hab; simp [dictGet] at hab) i r hr

/-- C7 witness: the general no-`"type"` conclusion instantiated at the
concrete graph of the `"Foo"`/`"Bar"` example itself. -/
theorem C7_parent_class_and_no_type_witness :
    (dictGet (create_json_mapping (add_class initState "Foo"
        { parent_class := some "Bar", pref_label := some (.str "Foo") }).graph) "Foo"
      = some [("parent_class", JVal.s "Bar"),
              ("pref_label", JVal.langMap [(some "en", "Foo")])])
    ∧ dictGet [("parent_class", JVal.s "Bar"),
               ("pref_label", JVal.langMap [(some "en", "Foo")])] "type" = none :=
  C7_parent_class_and_no_type
    (add_class initState "Foo"
      { parent_class := some "Bar", pref_label := some (.str "Foo") }).graph
    "Foo"
    [("parent_class", JVal.s "Bar"), ("pref_label", JVal.langMap [(some "en", "Foo")])]
    (by decide)

theorem jsonMappingStep_lang_first (S P : String) (k : String)
    (htr : translateKey (localName P) = some k) (l t : String) :
    jsonMappingStep [] (RDFNode.uri S, RDFNode.uri P, RDFNode.lit t (some l) none)
      = [(localName S, [(k, JVal.langMap [(some l, t)])])] := by
  simp [jsonMappingStep, nodeStr, shapeVal, htr, dictGet, dictSet]

theorem jsonMappingStep_lang_merge (S P : String) (k : String) (w : LangMap)
    (htr : translateKey (localName P) = some k) (l t : String) :
    jsonMappingStep [(localName S, [(k, JVal.langMap w)])]
        (RDFNode.uri S, RDFNode.uri P, RDFNode.lit t (some l) none)
      = [(localName S, [(k, JVal.langMap (sortPairs (dictSet w (some l) t)))])] := by
  simp [jsonMappingStep, nodeStr, shapeVal, htr, dictGet_cons, dictSet, pyDictUpdate,
    dictGet]

theorem collapse_fold_langs (S P : String) (k : String)
    (htr : translateKey (localName P) = some k) :
    ∀ (rest : List (String × String)) (w : LangMap),
      keysNodup w →
      sortedByKey w →
      dictGet w none = none →
      (∀ l, l ∈ rest.map Prod.fst → dictGet w (some l) = none) →
      (rest.map Prod.fst).Nodup →
      ∃ w2,
        List.foldl jsonMappingStep [(localName S, [(k, JVal.langMap w)])]
            (rest.map (fun lt => (RDFNode.uri S, RDFNode.uri P,
              RDFNode.lit lt.2 (some lt.1) none)))
          = [(localName S, [(k, JVal.langMap w2)])]
        ∧ keysNodup w2 ∧ sortedByKey w2 ∧ dictGet w2 none = none
        ∧ (∀ l, dictGet w2 (some l) =
            match dictGet w (some l) with
            | some v => some v
            | none => dictGet rest l) := by
  intro rest
  induction rest with
  | nil =>
    intro w hknd hsort hnone _ _
    refine ⟨w, rfl, hknd, hsort, hnone, ?_⟩
    intro l
    cases h : dictGet w (some l) with
    | some v => rfl
    | none => rfl
  | cons p rest' ih =>
    obtain ⟨l0, t0⟩ := p
    intro w hknd hsort hnone hfresh hrnd
    rw [List.map_cons, List.foldl_cons,
      jsonMappingStep_lang_merge S P k w htr l0 t0]
    have hset_nd : keysNodup (dictSet w (some l0) t0) :=
      keysNodup_dictSet w (some l0) t0 hknd
    have hw1nd : keysNodup (sortPairs (dictSet w (some l0) t0)) :=
      (((sortPairs_perm (dictSet w (some l0) t0)).map Prod.fst).nodup_iff).mpr hset_nd
    have hlook : ∀ x, dictGet (sortPairs (dictSet w (some l0) t0)) x
        = dictGet (dictSet w (some l0) t0) x :=
      fun x => dictGet_sortPairs (dictSet w (some l0) t0) hset_nd x
    have hl0mem : l0 ∈ (((l0, t0) :: rest').map Prod.fst) := by simp
    have hl0fresh : dictGet w (some l0) = none := hfresh l0 hl0mem
    have hrest_nd : (rest'.map Prod.fst).Nodup :=
      (List.nodup_cons.mp hrnd).2
    have hl0notin : l0 ∉ rest'.map Prod.fst := (List.nodup_cons.mp hrnd).1
    obtain ⟨w2, heq, hnd2, hsort2, hnone2, hlook2⟩ :=
      ih (sortPairs (dictSet w (some l0) t0)) hw1nd
        (sortPairs_sorted (dictSet w (some l0) t0))
        (by rw [hlook none,
              dictGet_dictSet_ne w (some l0) none t0 (by simp)]
            exact hnone)
        (by intro l hl
            have hne : (some l : Option String) ≠ some l0 := by
              intro hc
              exact hl0notin (Option.some.inj hc ▸ hl)
            rw [hlook (some l), dictGet_dictSet_ne w (some l0) (some l) t0 hne]
            exact hfresh l (List.mem_cons_of_mem _ hl))
        hrest_nd
    refine ⟨w2, heq, hnd2, hsort2, hnone2, ?_⟩
    intro l
    by_cases hcase : l = l0
    · subst hcase
      rw [hlook2 l, hlook (some l), dictGet_dictSet_self, hl0fresh, dictGet_cons]
      simp
    · rw [hlook2 l, hlook (some l),
        dictGet_dictSet_ne w (some l0) (some l) t0 (by simp [hcase]), dictGet_cons]
      cases h : dictGet w (some l) with
      | some v => rfl
      | none => simp [Ne.symm hcase]

/-- C3: expanding a language mapping `M` with unique keys into one
language-tagged literal statement per entry and collapsing those
statements through `create_json_mapping` yields a single record whose
field value is a language mapping equal to `M` (same lookups, no stray
key) and sorted by language code. -/
theorem C3_multilingual_roundtrip (S P : String) (M : List (String × String))
    (k : String) (hnodup : (M.map Prod.fst).Nodup) (hne : M ≠ [])
    (htr : translateKey (localName P) = some k) :
    ∃ w, create_json_mapping (add_multilingual_property []
        (RDFNode.uri S) (RDFNode.uri P) (.map M) DEFAULT_LANG)
      = [(localName S, [(k, JVal.langMap w)])]
    ∧ sortedByKey w
    ∧ (∀ l, dictGet w (some l) = dictGet M l)
    ∧ dictGet w none = none := by
  have hMnd : M.Nodup := List.Nodup.of_map Prod.fst hnodup
  have hinj : Function.Injective (fun (lt : String × String) =>
      ((RDFNode.uri S, RDFNode.uri P, RDFNode.lit lt.2 (some lt.1) none) : Triple)) := by
    intro a b hab
    simp only [Prod.mk.injEq, RDFNode.lit.injEq, Option.some.injEq, true_and] at hab
    exact Prod.ext hab.2.1 hab.1
  have htrip : (M.map (fun lt => (RDFNode.uri S, RDFNode.uri P,
      RDFNode.lit lt.2 (some lt.1) none))).Nodup := hMnd.map hinj
  have hg : add_multilingual_property [] (RDFNode.uri S) (RDFNode.uri P)
        (.map M) DEFAULT_LANG
      = M.map (fun lt => (RDFNode.uri S, RDFNode.uri P,
          RDFNode.lit lt.2 (some lt.1) none)) := by
    unfold add_multilingual_property multilingualTriples
    rw [RDFGraph.addAll_eq_append htrip (fun t _ => List.not_mem_nil t)]
    simp
  obtain ⟨⟨l0, t0⟩, Mrest, rfl⟩ : ∃ p rest, M = p :: rest := by
    cases M with
    | nil => exact absurd rfl hne
    | cons p r => exact ⟨p, r, rfl⟩
  have hl0notin : l0 ∉ Mrest.map Prod.fst := (List.nodup_cons.mp hnodup).1
  have hrest_nd : (Mrest.map Prod.fst).Nodup := (List.nodup_cons.mp hnodup).2
  unfold create_json_mapping
  rw [hg, List.map_cons, List.foldl_cons, jsonMappingStep_lang_first S P k htr l0 t0]
  obtain ⟨w2, heq, _, hsort2, hnone2, hlook2⟩ :=
    collapse_fold_langs S P k htr Mrest [(some l0, t0)]
      (by simp [keysNodup])
      (List.chain'_singleton _)
      (by rw [dictGet_cons, if_neg (by simp)]; rfl)
      (by intro l hl
          rw [dictGet_cons, if_neg ?hne0]
          · rfl
          case hne0 =>
            intro hc
            exact hl0notin ((Option.some.inj hc) ▸ hl))
      hrest_nd
  refine ⟨w2, heq, hsort2, ?_, hnone2⟩
  intro l
  rw [hlook2 l, dictGet_cons]
  by_cases hcase : l0 = l
  · subst hcase
    rw [dictGet_cons, if_pos rfl, if_pos rfl]
  · rw [dictGet_cons, if_neg hcase, if_neg (by simpa using hcase)]
    cases h : dictGet Mrest l with
    | some v => rfl
    | none => rfl

/-- C3 witness: the round trip at the concrete mapping
`fr -> Tâche, en -> Job` on `skos:prefLabel`. -/
theorem C3_multilingual_roundtrip_witness :
    ∃ w, create_json_mapping (add_multilingual_property []
        (RDFNode.uri (baseURI ++ "Job")) (RDFNode.uri (skosNS ++ "prefLabel"))
        (.map [("fr", "Tâche"), ("en", "Job")]) DEFAULT_LANG)
      = [("Job", [("pref_label", JVal.langMap w)])]
    ∧ sortedByKey w
    ∧ (∀ l, dictGet w (some l) = dictGet [("fr", "Tâche"), ("en", "Job")] l)
    ∧ dictGet w none = none := by
  have h := C3_multilingual_roundtrip (baseURI ++ "Job") (skosNS ++ "prefLabel")
    [("fr", "Tâche"), ("en", "Job")] "pref_label" (by decide) (by decide) (by decide)
  simpa [show localName (baseURI ++ "Job") = "Job" from by decide] using h

/-! ### Dump lemmas -/

theorem rebuildOutput_ok (existing : List String) :
    ∀ (entries : List (String × JRecord)),
      existing.Nodup →
      (∀ i ∈ existing, i ∈ entries.map Prod.fst) →
      rebuildOutput existing entries
        = .ok (existing.filterMap (fun i => dictGet entries i)
            ++ (entries.filter (fun e => e.1 ∉ existing)).map Prod.snd) := by
  induction existing with
  | nil =>
    intro entries _ _
    unfold rebuildOutput
    simp
  | cons a rest ih =>
    intro entries hnd hsub
    have ha : a ∈ entries.map Prod.fst := hsub a (List.mem_cons_self _ _)
    obtain ⟨v, hv⟩ : ∃ v, dictGet entries a = some v := by
      cases h : dictGet entries a with
      | none => exact absurd (dictGet_eq_none_iff.mp h) (not_not_intro ha)
      | some v => exact ⟨v, rfl⟩
    have hanotin : a ∉ rest := (List.nodup_cons.mp hnd).1
    have hIH := ih (dictRemove entries a) (List.nodup_cons.mp hnd).2 ?hsub2
    case hsub2 =>
      intro i hi
      have hine : i ≠ a := fun he => hanotin (he ▸ hi)
      have : i ∈ entries.map Prod.fst := hsub i (List.mem_cons_of_mem _ hi)
      rcases List.mem_map.mp this with ⟨p, hp, hpk⟩
      refine List.mem_map.mpr ⟨p, ?_, hpk⟩
      exact List.mem_filter.mpr ⟨hp, by simp [hpk, hine]⟩
    unfold rebuildOutput
    rw [hv, hIH]
    have hfm : rest.filterMap (fun i => dictGet (dictRemove entries a) i)
        = rest.filterMap (fun i => dictGet entries i) := by
      apply List.filterMap_congr
      intro i hi
      exact dictGet_dictRemove_ne entries a i (fun he => hanotin (he ▸ hi))
    have hfl : (dictRemove entries a).filter (fun e => e.1 ∉ rest)
        = entries.filter (fun e => e.1 ∉ a :: rest) := by
      unfold dictRemove
      rw [List.filter_filter]
      apply List.filter_congr
      intro p _
      by_cases h1 : p.1 = a <;> by_cases h2 : p.1 ∈ rest <;> simp [h1, h2]
    rw [hfm, hfl]
    simp [hv]

theorem rebuildOutput_error (existing : List String) :
    ∀ (entries : List (String × JRecord)) (x : String),
      x ∈ existing → x ∉ entries.map Prod.fst →
      ∃ kf, rebuildOutput existing entries = .error (some kf) := by
  induction existing with
  | nil => intro _ x hx _; simp at hx
  | cons a rest ih =>
    intro entries x hx hnx
    by_cases hax : a = x
    · subst hax
      have h : dictGet entries a = none := dictGet_eq_none_iff.mpr hnx
      refine ⟨a, ?_⟩
      unfold rebuildOutput
      rw [h]
    · have hxrest : x ∈ rest := by
        rcases List.mem_cons.mp hx with h | h
        · exact absurd h.symm hax
        · exact h
      cases hv : dictGet entries a with
      | none =>
        refine ⟨a, ?_⟩
        unfold rebuildOutput
        rw [hv]
      | some v =>
        obtain ⟨kf, hkf⟩ := ih (dictRemove entries a) x hxrest
          (fun hc => hnx (keys_dictRemove_subset entries a hc))
        refine ⟨kf, ?_⟩
        unfold rebuildOutput
        rw [hv, hkf]

theorem rebuildOutput_error_shape (existing : List String) :
    ∀ (entries : List (String × JRecord)) (e : Option String),
      rebuildOutput existing entries = .error e → ∃ i, e = some i := by
  induction existing with
  | nil => intro entries e h; exact absurd h (by unfold rebuildOutput; simp)
  | cons a rest ih =>
    intro entries e h
    unfold rebuildOutput at h
    cases hv : dictGet entries a with
    | none =>
      rw [hv] at h
      exact ⟨a, (Except.error.inj h).symm⟩
    | some v =>
      rw [hv] at h
      cases hr : rebuildOutput rest (dictRemove entries a) with
      | error e2 =>
        rw [hr] at h
        obtain rfl : e2 = e := Except.error.inj h
        exact ih (dictRemove entries a) _ hr
      | ok out =>
        rw [hr] at h
        exact Except.noConfusion h

theorem fileGrouping_aux_keysNodup (fileMap : List (String × String)) :
    ∀ (ms : List (String × JRecord))
      (acc : List (Option String × List (String × JRecord))),
      keysNodup acc →
      keysNodup (ms.foldl (fun fg idData =>
        dictSet fg (dictGet fileMap idData.1)
          (dictSet ((dictGet fg (dictGet fileMap idData.1)).getD []) idData.1
            (reorderRecord idData.1 idData.2))) acc) := by
  intro ms
  induction ms with
  | nil => intro acc h; exact h
  | cons x ms ih =>
    intro acc h
    rw [List.foldl_cons]
    exact ih _ (keysNodup_dictSet _ _ _ h)

theorem fileGrouping_keysNodup (mapping : List (String × JRecord))
    (fileMap : List (String × String)) :
    keysNodup (fileGrouping mapping fileMap) :=
  fileGrouping_aux_keysNodup fileMap mapping [] (by simp [keysNodup])

theorem fileGrouping_aux_no_none (fileMap : List (String × String)) :
    ∀ (ms : List (String × JRecord))
      (acc : List (Option String × List (String × JRecord))),
      (∀ p ∈ ms, (dictGet fileMap p.1).isSome = true) →
      dictGet acc none = none →
      dictGet (ms.foldl (fun fg idData =>
        dictSet fg (dictGet fileMap idData.1)
          (dictSet ((dictGet fg (dictGet fileMap idData.1)).getD []) idData.1
            (reorderRecord idData.1 idData.2))) acc) none = none := by
  intro ms
  induction ms with
  | nil => intro acc _ h; exact h
  | cons x ms ih =>
    intro acc hmap hnone
    rw [List.foldl_cons]
    refine ih _ (fun p hp => hmap p (List.mem_cons_of_mem _ hp)) ?_
    obtain ⟨f, hf⟩ := Option.isSome_iff_exists.mp (hmap x (List.mem_cons_self _ _))
    rw [hf, dictGet_dictSet_ne _ _ _ _ (by simp)]
    exact hnone

theorem fileGrouping_no_none (mapping : List (String × JRecord))
    (fileMap : List (String × String))
    (hmapped : ∀ p ∈ mapping, (dictGet fileMap p.1).isSome = true) :
    dictGet (fileGrouping mapping fileMap) none = none :=
  fileGrouping_aux_no_none fileMap mapping [] hmapped rfl

/-- Per-group success condition for the write loop: the target file's
on-disk identifier list has no duplicates and every one of its ids is
present in the group (so no `entries.pop(id)` raises). -/
def groupOk (disk : List (String × List String))
    (p : Option String × List (String × JRecord)) : Bool :=
  match p.1 with
  | none => true
  | some f =>
    decide ((dictGet disk f).getD []).Nodup
    && ((dictGet disk f).getD []).all (fun i => p.2.any (fun e => e.1 = i))

/-- All groups satisfy `groupOk`. -/
def groupsComplete (fg : List (Option String × List (String × JRecord)))
    (disk : List (String × List String)) : Bool :=
  fg.all (groupOk disk)

theorem groupOk_some {disk : List (String × List String)} {f : String}
    {g : List (String × JRecord)} (h : groupOk disk (some f, g) = true) :
    ((dictGet disk f).getD []).Nodup
    ∧ ∀ i ∈ (dictGet disk f).getD [], i ∈ g.map Prod.fst := by
  unfold groupOk at h
  rw [Bool.and_eq_true, decide_eq_true_eq, List.all_eq_true] at h
  refine ⟨h.1, fun i hi => ?_⟩
  obtain ⟨e, he, hek⟩ := List.any_eq_true.mp (h.2 i hi)
  rw [decide_eq_true_eq] at hek
  exact List.mem_map.mpr ⟨e, he, hek⟩

theorem writeFiles_ok (disk : List (String × List String)) :
    ∀ (fg : List (Option String × List (String × JRecord))),
      groupsComplete fg disk = true →
      ((writeFiles disk fg).2 = Except.ok ()
       ∧ (writeFiles disk fg).1.map Prod.fst = fg.filterMap Prod.fst
       ∧ ∀ F g, (some F, g) ∈ fg →
           (F, ((dictGet disk F).getD []).filterMap (fun i => dictGet g i)
             ++ (g.filter (fun e => e.1 ∉ (dictGet disk F).getD [])).map Prod.snd)
           ∈ (writeFiles disk fg).1) := by
  intro fg
  induction fg with
  | nil =>
    intro _
    exact ⟨rfl, rfl, fun F g h => absurd h (List.not_mem_nil _)⟩
  | cons p rest ih =>
    intro hc
    rw [groupsComplete, List.all_cons, Bool.and_eq_true] at hc
    obtain ⟨ih1, ih2, ih3⟩ := ih hc.2
    obtain ⟨fx, g0⟩ := p
    cases fx with
    | none =>
      refine ⟨ih1, by simpa [writeFiles] using ih2, ?_⟩
      intro F g hmem
      rcases List.mem_cons.mp hmem with hhead | hrest
      · exact absurd (congrArg Prod.fst hhead) (by simp)
      · exact ih3 F g hrest
    | some f0 =>
      have hok := groupOk_some hc.1
      have hreb := rebuildOutput_ok ((dictGet disk f0).getD []) g0 hok.1 hok.2
      refine ⟨?_, ?_, ?_⟩
      · simp only [writeFiles]
        rw [hreb]
        exact ih1
      · simp only [writeFiles]
        rw [hreb]
        simpa using ih2
      · intro F g hmem
        rcases List.mem_cons.mp hmem with hhead | hrest
        · obtain ⟨hf, hg⟩ := Prod.mk.injEq _ _ _ _ ▸ hhead
          obtain rfl : F = f0 := Option.some.inj hf
          subst hg
          simp only [writeFiles]
          rw [hreb]
          exact List.mem_cons_self _ _
        · simp only [writeFiles]
          rw [hreb]
          exact List.mem_cons_of_mem _ (ih3 F g hrest)

theorem writeFiles_error_skips (disk : List (String × List String)) :
    ∀ (fg : List (Option String × List (String × JRecord))),
      keysNodup fg →
      ∀ F g, (some F, g) ∈ fg →
      ∀ x, x ∈ (dictGet disk F).getD [] → x ∉ g.map Prod.fst →
      (∃ kf, (writeFiles disk fg).2 = Except.error (some kf))
      ∧ F ∉ (writeFiles disk fg).1.map Prod.fst := by
  intro fg
  induction fg with
  | nil => intro _ F g h; exact absurd h (List.not_mem_nil _)
  | cons p rest ih =>
    intro hnd F g hmem x hx hxg
    obtain ⟨fx, g0⟩ := p
    have hndrest : keysNodup rest := by
      rw [keysNodup, List.map_cons, List.nodup_cons] at hnd
      exact hnd.2
    rcases List.mem_cons.mp hmem with hhead | hrest
    · obtain ⟨hf, hg⟩ := Prod.mk.injEq _ _ _ _ ▸ hhead
      obtain rfl : fx = some F := hf.symm
      subst hg
      obtain ⟨kf, hkf⟩ := rebuildOutput_error _ g x hx hxg
      constructor
      · refine ⟨kf, ?_⟩
        simp only [writeFiles]
        rw [hkf]
      · simp only [writeFiles]
        rw [hkf]
        simp
    · obtain ⟨⟨kf, hkf⟩, hnotin⟩ := ih hndrest F g hrest x hx hxg
      cases fx with
      | none => exact ⟨⟨kf, hkf⟩, hnotin⟩
      | some f0 =>
        have hFne : ¬ F = f0 := by
          intro he
          subst he
          have hmem2 : (some F) ∈ rest.map Prod.fst :=
            List.mem_map.mpr ⟨(some F, g), hrest, rfl⟩
          rw [keysNodup, List.map_cons, List.nodup_cons] at hnd
          exact hnd.1 hmem2
        cases hreb : rebuildOutput ((dictGet disk f0).getD []) g0 with
        | error e =>
          obtain ⟨i, rfl⟩ := rebuildOutput_error_shape _ g0 e hreb
          constructor
          · refine ⟨i, ?_⟩
            simp only [writeFiles]
            rw [hreb]
          · simp only [writeFiles]
            rw [hreb]
            simp
        | ok out =>
          constructor
          · refine ⟨kf, ?_⟩
            simp only [writeFiles]
            rw [hreb]
            exact hkf
          · simp only [writeFiles]
            rw [hreb]
            simp only [List.map_cons, List.mem_cons]
            intro hc
            rcases hc with hc | hc
            · exact hFne hc
            · exact hnotin hc

theorem dump_written_eq (mapping : List (String × JRecord))
    (fileMap : List (String × String)) (disk : List (String × List String)) :
    (dump_to_json mapping fileMap disk).written
      = (writeFiles disk (fileGrouping mapping fileMap)).1 := by
  unfold dump_to_json
  cases h : (writeFiles disk (fileGrouping mapping fileMap)).2 with
  | error e => simp [h]
  | ok u =>
    cases hg : dictGet (fileGrouping mapping fileMap) none <;> simp [h, hg]

theorem dump_outcome_missing_none_group (mapping : List (String × JRecord))
    (fileMap : List (String × String)) (disk : List (String × List String))
    (hok : (writeFiles disk (fileGrouping mapping fileMap)).2 = Except.ok ())
    (hnone : dictGet (fileGrouping mapping fileMap) none = none) :
    (dump_to_json mapping fileMap disk).outcome = Except.error none := by
  unfold dump_to_json
  simp [hok, hnone]

theorem dump_outcome_write_error (mapping : List (String × JRecord))
    (fileMap : List (String × String)) (disk : List (String × List String))
    (e : Option String)
    (herr : (writeFiles disk (fileGrouping mapping fileMap)).2 = Except.error e) :
    (dump_to_json mapping fileMap disk).outcome = Except.error e := by
  unfold dump_to_json
  simp [herr]

/-- C4: when every group of the dump rebuilds successfully (its target
file's on-disk ids are duplicate-free and all known to the group),
`dump_to_json` writes each target file with the records of the
pre-existing identifiers in their original on-disk order followed by
the newly added entries appended after them, in collection order. -/
theorem C4_dump_order_preservation
    (mapping : List (String × JRecord)) (fileMap : List (String × String))
    (disk : List (String × List String)) (F : String)
    (g : List (String × JRecord)) (existing : List String)
    (hcomplete : groupsComplete (fileGrouping mapping fileMap) disk = true)
    (hg : (some F, g) ∈ fileGrouping mapping fileMap)
    (hdisk : dictGet disk F = some existing) :
    (F, existing.filterMap (fun i => dictGet g i)
        ++ (g.filter (fun e => e.1 ∉ existing)).map Prod.snd)
      ∈ (dump_to_json mapping fileMap disk).written := by
  obtain ⟨-, -, h3⟩ := writeFiles_ok disk (fileGrouping mapping fileMap) hcomplete
  have hmem := h3 F g hg
  rw [hdisk] at hmem
  rw [dump_written_eq]
  simpa using hmem

/-- C4 witness: on-disk order `[A, C, B]` plus new entity `D` produces
output order `[A, C, B, D]`. -/
theorem C4_dump_order_preservation_witness :
    ("f.json", [[("id", JVal.s "A")], [("id", JVal.s "C")], [("id", JVal.s "B")],
      [("id", JVal.s "D")]])
      ∈ (dump_to_json [("A", []), ("C", []), ("B", []), ("D", [])]
          [("A", "f.json"), ("C", "f.json"), ("B", "f.json"), ("D", "f.json")]
          [("f.json", ["A", "C", "B"])]).written := by
  have h := C4_dump_order_preservation
    [("A", []), ("C", []), ("B", []), ("D", [])]
    [("A", "f.json"), ("C", "f.json"), ("B", "f.json"), ("D", "f.json")]
    [("f.json", ["A", "C", "B"])] "f.json"
    [("A", [("id", JVal.s "A")]), ("C", [("id", JVal.s "C")]),
     ("B", [("id", JVal.s "B")]), ("D", [("id", JVal.s "D")])]
    ["A", "C", "B"] (by decide) (by decide) (by decide)
  exact h

/-- C9: when every identifier in the derived mapping is mapped to a
file and all file groups rebuild successfully, `dump_to_json` writes
every file and then raises `KeyError` (error value `none`, the Python
`None` key) at the final `file_grouping[None]` access, instead of
completing normally with an empty warning. -/
theorem C9_dump_keyerror_when_all_mapped
    (mapping : List (String × JRecord)) (fileMap : List (String × String))
    (disk : List (String × List String))
    (hcomplete : groupsComplete (fileGrouping mapping fileMap) disk = true)
    (hmapped : ∀ p ∈ mapping, (dictGet fileMap p.1).isSome = true) :
    (dump_to_json mapping fileMap disk).outcome = Except.error none
    ∧ (dump_to_json mapping fileMap disk).written.map Prod.fst
        = (fileGrouping mapping fileMap).filterMap Prod.fst := by
  obtain ⟨h1, h2, -⟩ := writeFiles_ok disk (fileGrouping mapping fileMap) hcomplete
  refine ⟨dump_outcome_missing_none_group mapping fileMap disk h1
    (fileGrouping_no_none mapping fileMap hmapped), ?_⟩
  rw [dump_written_eq]
  exact h2

/-- C9 witness: two fully mapped identifiers, one already on disk; the
dump writes the file and then raises `KeyError: None`. -/
theorem C9_dump_keyerror_when_all_mapped_witness :
    (dump_to_json [("A", []), ("B", [])] [("A", "f.json"), ("B", "f.json")]
        [("f.json", ["A"])]).outcome = Except.error none
    ∧ (dump_to_json [("A", []), ("B", [])] [("A", "f.json"), ("B", "f.json")]
        [("f.json", ["A"])]).written.map Prod.fst
      = (fileGrouping [("A", []), ("B", [])]
          [("A", "f.json"), ("B", "f.json")]).filterMap Prod.fst :=
  C9_dump_keyerror_when_all_mapped [("A", []), ("B", [])]
    [("A", "f.json"), ("B", "f.json")] [("f.json", ["A"])]
    (by decide) (by decide)

/-- C10: when a dump target file's on-disk content contains an
identifier that is not among the entries grouped to that file,
`dump_to_json` raises `KeyError` (the error value carries the missing
key) while rebuilding, and that file is never written — its previous
contents survive. -/
theorem C10_dump_keyerror_unknown_existing_id
    (mapping : List (String × JRecord)) (fileMap : List (String × String))
    (disk : List (String × List String)) (F : String)
    (g : List (String × JRecord)) (existing : List String) (x : String)
    (hg : (some F, g) ∈ fileGrouping mapping fileMap)
    (hdisk : dictGet disk F = some existing)
    (hx : x ∈ existing) (hxg : x ∉ g.map Prod.fst) :
    (∃ kf, (dump_to_json mapping fileMap disk).outcome = Except.error (some kf))
    ∧ F ∉ (dump_to_json mapping fileMap disk).written.map Prod.fst := by
  have hnd := fileGrouping_keysNodup mapping fileMap
  have hx' : x ∈ (dictGet disk F).getD [] := by rw [hdisk]; exact hx
  obtain ⟨⟨kf, hkf⟩, hnotin⟩ :=
    writeFiles_error_skips disk (fileGrouping mapping fileMap) hnd F g hg x hx' hxg
  refine ⟨⟨kf, dump_outcome_write_error mapping fileMap disk (some kf) hkf⟩, ?_⟩
  rw [dump_written_eq]
  exact hnotin

/-- C10 witness: the file lists the stale id `"Z"` that the graph
grouping does not contain; the dump raises `KeyError` and the file is
not overwritten. -/
theorem C10_dump_keyerror_unknown_existing_id_witness :
    (∃ kf, (dump_to_json [("A", [])] [("A", "f.json")]
        [("f.json", ["A", "Z"])]).outcome = Except.error (some kf))
    ∧ "f.json" ∉ (dump_to_json [("A", [])] [("A", "f.json")]
        [("f.json", ["A", "Z"])]).written.map Prod.fst :=
  C10_dump_keyerror_unknown_existing_id [("A", [])] [("A", "f.json")]
    [("f.json", ["A", "Z"])] "f.json" [("A", [("id", JVal.s "A")])]
    ["A", "Z"] "Z" (by decide) (by decide) (by decide) (by decide)
